import Mathlib

/-!
Shallow embedding of the UPI transaction log analyzer
(`src/10-upi-transaction-log.js`, function `analyzeUPITransactions`)
together with theorems settling the specification's claims.

JavaScript numbers appearing as transaction amounts are modelled as
rationals (`ℚ`); a field whose value is absent, `undefined`, or of the
wrong dynamic type is modelled as `none`.  An array element that is
falsy (e.g. `null`) is modelled as `none` in the input list; any truthy
element is modelled as a `Txn` whose fields record which properties it
carries.  An argument that is not an array at all is the
`JSInput.notArray` constructor.

The two dictionary objects the source builds from object literals
(`contactCount` and the `categoryBreakdown` accumulator) are modelled
with their prototype chain: reading a key such as `"toString"` that
names an `Object.prototype` function yields a truthy inherited function,
so `(x || 0) + v` produces a non-numeric string (`CCVal.junk` /
`BDVal.junk`; its exact text is engine-defined and the analyzer never
inspects it beyond truthiness, further concatenation, and `>` against a
number, which `NaN`-converts to false), and an assignment to
`"__proto__"` is swallowed by the inherited accessor's setter, because
the assigned value is not an object.
-/

/-- A transaction-like object.  Each field is `none` when the property is
missing or not of the expected dynamic type; `amount` is `some q` exactly
when the property holds a numeric value `q`. -/
structure Txn where
  id : Option String
  type : Option String
  amount : Option ℚ
  «to» : Option String
  category : Option String
  date : Option String
deriving Repr, DecidableEq

/-- The argument of `analyzeUPITransactions`: either not an array, or an
array whose elements are falsy (`none`) or transaction-like objects. -/
inductive JSInput where
  | notArray : JSInput
  | arr : List (Option Txn) → JSInput
deriving Repr, DecidableEq

/-- The filter predicate from the source:
`txn && (txn.type === "credit" || txn.type === "debit") &&
typeof txn.amount === "number" && txn.amount > 0`. -/
def isValid : Option Txn → Bool
  | none => false
  | some t =>
    (t.type == some "credit" || t.type == some "debit") &&
    (match t.amount with
     | some a => decide (0 < a)
     | none => false)

/-- The `amount` of a transaction as a rational; `0` when absent.  All
computations of the analyzer read `amount` only on valid records, where
the field is present, so the default is never observed. -/
def Txn.amt (t : Txn) : ℚ := t.amount.getD 0

/-- `transactions.filter(txn => ...)`: the valid records, in input order. -/
def validTxns (l : List (Option Txn)) : List Txn :=
  (l.filter isValid).reduceOption

/-- `txn.type === "credit"`. -/
def isCredit (t : Txn) : Bool := t.type == some "credit"

/-- `txn.type === "debit"`. -/
def isDebit (t : Txn) : Bool := t.type == some "debit"

/-- `validTxns.filter(credit).reduce((sum, txn) => sum + txn.amount, 0)`. -/
def totalCredit (txns : List Txn) : ℚ :=
  (txns.filter isCredit).foldl (fun sum t => sum + t.amt) 0

/-- `validTxns.filter(debit).reduce((sum, txn) => sum + txn.amount, 0)`. -/
def totalDebit (txns : List Txn) : ℚ :=
  (txns.filter isDebit).foldl (fun sum t => sum + t.amt) 0

/-- `validTxns.reduce((sum, txn) => sum + txn.amount, 0)`. -/
def totalAmount (txns : List Txn) : ℚ :=
  txns.foldl (fun sum t => sum + t.amt) 0

/-- `Math.round`: rounds to the nearest integer, halves toward `+∞`. -/
def jsRound (q : ℚ) : ℤ := ⌊q + 1 / 2⌋

/-- `validTxns.reduce((max, txn) => txn.amount > max.amount ? txn : max)`:
the running maximum, strictly-greater replaces, seeded with the first
element. -/
def highestLoop : Txn → List Txn → Txn
  | m, [] => m
  | m, t :: ts => highestLoop (if m.amt < t.amt then t else m) ts

/-- Property names of `Object.prototype` whose values are functions.  A
read of one of these keys from an empty object literal hits the
prototype chain and yields a truthy function value instead of
`undefined`. -/
def protoFnKeys : List String :=
  ["constructor", "hasOwnProperty", "isPrototypeOf", "propertyIsEnumerable",
   "toLocaleString", "toString", "valueOf", "__defineGetter__",
   "__defineSetter__", "__lookupGetter__", "__lookupSetter__"]

/-- Does reading `k` from `{}` return an inherited `Object.prototype`
function?  A missing field (`none`) coerces to the property key
`"undefined"`, which is a plain key. -/
def isProtoFnKey (k : Option String) : Bool :=
  match k with
  | some s => protoFnKeys.contains s
  | none => false

/-- A value stored as an own property of the `contactCount` object:
either a numeric count, or the non-numeric string produced by
concatenating `1` onto an inherited function.  The exact string is
engine-defined; every later use (truthiness, concatenation, `>` against
a number) behaves identically for all such strings, so no text is
carried. -/
inductive CCVal where
  | count : ℕ → CCVal
  | junk : CCVal
deriving Repr, DecidableEq

/-- The result of reading `obj[k]` on a dictionary object built from an
object literal: an own property, the inherited `Object.prototype`
function for keys in `protoFnKeys`, the `Object.prototype` object itself
for `"__proto__"` (an inherited accessor), or `undefined`. -/
inductive CCRead where
  | undef : CCRead
  | own : CCVal → CCRead
  | protoFn : CCRead
  | protoObj : CCRead
deriving Repr, DecidableEq

/-- Own-property lookup on an insertion-ordered association list. -/
def objGet {γ : Type} : List (Option String × γ) → Option String → Option γ
  | [], _ => none
  | (k', v) :: rest, k => if k' = k then some v else objGet rest k

/-- Own-property assignment `obj[k] = v` on an insertion-ordered
association list: update in place, or append a new key at the end, as
JavaScript object insertion order does. -/
def objSet {γ : Type} :
    List (Option String × γ) → Option String → γ → List (Option String × γ)
  | [], k, v => [(k, v)]
  | (k', w) :: rest, k, v =>
    if k' = k then (k', v) :: rest else (k', w) :: objSet rest k v

/-- Reading `contactCount[k]`, prototype chain included: `"__proto__"`
always hits the inherited accessor (an own property for it is never
created, since the setter ignores non-object values), other keys are own
properties first, then inherited functions, then `undefined`. -/
def ccGet (store : List (Option String × CCVal)) (k : Option String) : CCRead :=
  if k = some "__proto__" then CCRead.protoObj
  else
    match objGet store k with
    | some v => CCRead.own v
    | none => if isProtoFnKey k then CCRead.protoFn else CCRead.undef

/-- `contactCount[txn.to] = (contactCount[txn.to] || 0) + 1`:
`undefined` starts the count at 1; a count is incremented; a junk string
or an inherited function is truthy, and concatenating `1` onto it gives
a junk string stored as an own (shadowing) property; for `"__proto__"`
the read yields the truthy `Object.prototype`, but the assignment goes
through the inherited setter, which ignores the string value, so the
store is unchanged. -/
def ccStep (store : List (Option String × CCVal)) (k : Option String) :
    List (Option String × CCVal) :=
  match ccGet store k with
  | CCRead.undef => objSet store k (CCVal.count 1)
  | CCRead.own (CCVal.count n) => objSet store k (CCVal.count (n + 1))
  | CCRead.own CCVal.junk => objSet store k CCVal.junk
  | CCRead.protoFn => objSet store k CCVal.junk
  | CCRead.protoObj => store

/-- The `contactCount` object after
`validTxns.forEach(txn => contactCount[txn.to] = (contactCount[txn.to] || 0) + 1)`. -/
def contactCountObj (txns : List Txn) : List (Option String × CCVal) :=
  txns.foldl (fun store t => ccStep store t.«to») []

/-- The `for (let txn of validTxns)` scan:
`if (contactCount[txn.to] > maxCount)` then update `maxCount` and
`frequentContact`.  The comparison is numeric only when the read yields
a number; a junk string, an inherited function, or `Object.prototype`
converts to `NaN`, making the comparison false. -/
def freqScan (cc : List (Option String × CCVal)) :
    Option String × ℕ → List Txn → Option String × ℕ
  | s, [] => s
  | (best, m), t :: ts =>
    freqScan cc
      (match ccGet cc t.«to» with
       | CCRead.own (CCVal.count n) => if m < n then (t.«to», n) else (best, m)
       | _ => (best, m))
      ts

/-- A value stored in the `categoryBreakdown` object: a number, or the
non-numeric string produced when the key names an inherited
`Object.prototype` function (a later `string + number` keeps it a
non-numeric string; its engine-defined text is never inspected). -/
inductive BDVal where
  | num : ℚ → BDVal
  | junk : BDVal
deriving Repr, DecidableEq

/-- `acc[txn.category] = (acc[txn.category] || 0) + txn.amount` with the
prototype chain: a fresh plain key stores the amount; an existing
numeric entry is summed; a key in `protoFnKeys` reads the truthy
inherited function, so the stored own property is a junk string and
stays one; for `"__proto__"` the read is the truthy `Object.prototype`
and the write is swallowed by the inherited setter, leaving no entry. -/
def bdStep (acc : List (Option String × BDVal)) (k : Option String) (a : ℚ) :
    List (Option String × BDVal) :=
  if k = some "__proto__" then acc
  else
    match objGet acc k with
    | some (BDVal.num v) => objSet acc k (BDVal.num (v + a))
    | some BDVal.junk => objSet acc k BDVal.junk
    | none =>
      if isProtoFnKey k then objSet acc k BDVal.junk
      else objSet acc k (BDVal.num a)

/-- `validTxns.reduce((acc, txn) => { acc[txn.category] = ... }, {})`. -/
def categoryBreakdown (txns : List Txn) : List (Option String × BDVal) :=
  txns.foldl (fun acc t => bdStep acc t.category t.amt) []

/-- The number of valid records whose `to` field is `k`: the occurrence
count the specification's `frequentContact` clause refers to. -/
def labelCount (txns : List Txn) (k : Option String) : ℕ :=
  (txns.filter (fun t => t.«to» == k)).length

/-- The object returned by `analyzeUPITransactions` on success. -/
structure Summary where
  totalCredit : ℚ
  totalDebit : ℚ
  netBalance : ℚ
  transactionCount : ℕ
  avgTransaction : ℤ
  highestTransaction : Txn
  categoryBreakdown : List (Option String × BDVal)
  frequentContact : Option String
  allAbove100 : Bool
  hasLargeTransaction : Bool
deriving Repr, DecidableEq

/-- The computation on the filtered list: `null` when no valid record is
left, otherwise the summary object built field by field as in the source. -/
def computeSummary : List Txn → Option Summary
  | [] => none
  | h :: ts =>
    some
      { totalCredit := totalCredit (h :: ts)
        totalDebit := totalDebit (h :: ts)
        netBalance := totalCredit (h :: ts) - totalDebit (h :: ts)
        transactionCount := (h :: ts).length
        avgTransaction := jsRound (totalAmount (h :: ts) / ((h :: ts).length : ℚ))
        highestTransaction := highestLoop h ts
        categoryBreakdown := categoryBreakdown (h :: ts)
        frequentContact := (freqScan (contactCountObj (h :: ts)) (h.«to», 0) (h :: ts)).1
        allAbove100 := (h :: ts).all fun t => decide (100 < t.amt)
        hasLargeTransaction := (h :: ts).any fun t => decide (5000 ≤ t.amt) }

/-- `analyzeUPITransactions`: `null` unless the argument is a non-empty
array; otherwise filter and compute. -/
def analyzeUPITransactions : JSInput → Option Summary
  | JSInput.notArray => none
  | JSInput.arr l => if l.isEmpty then none else computeSummary (validTxns l)

/-- Minimum amount over a non-empty list of records, seeded with the head. -/
def minAmt (h : Txn) (ts : List Txn) : ℚ :=
  ts.foldl (fun m t => min m t.amt) h.amt

/-- Maximum amount over a non-empty list of records, seeded with the head. -/
def maxAmt (h : Txn) (ts : List Txn) : ℚ :=
  ts.foldl (fun m t => max m t.amt) h.amt

/-- Left-to-right argmax scan: the candidate is replaced exactly when a
strictly larger key is seen, so the first maximal element wins. -/
def argmaxLeft {α β : Type} [LinearOrder β] (f : α → β) : α → List α → α
  | b, [] => b
  | b, x :: xs => argmaxLeft f (if f b < f x then x else b) xs

theorem foldl_add_amt (l : List Txn) (a : ℚ) :
    l.foldl (fun sum t => sum + t.amt) a = a + (l.map Txn.amt).sum := by
  induction l generalizing a with
  | nil => simp
  | cons t ts ih => simp [ih, add_assoc]

theorem mem_validTxns {l : List (Option Txn)} {t : Txn} :
    t ∈ validTxns l ↔ some t ∈ l ∧ isValid (some t) = true := by
  simp [validTxns, List.reduceOption_mem_iff, List.mem_filter]

theorem find?_cons_pos {α : Type} (p : α → Bool) (a : α) (l : List α) (h : p a = true) :
    (a :: l).find? p = some a := by
  simp [List.find?, h]

theorem find?_cons_neg {α : Type} (p : α → Bool) (a : α) (l : List α) (h : p a = false) :
    (a :: l).find? p = l.find? p := by
  simp [List.find?, h]

theorem argmaxLeft_le_init {α β : Type} [LinearOrder β] (f : α → β) (b : α) (l : List α) :
    f b ≤ f (argmaxLeft f b l) := by
  induction l generalizing b with
  | nil => simp [argmaxLeft]
  | cons y ys ih =>
    rw [argmaxLeft]
    by_cases hb : f b < f y
    · rw [if_pos hb]
      exact le_trans hb.le (ih y)
    · rw [if_neg hb]
      exact ih b

theorem argmaxLeft_le_mem {α β : Type} [LinearOrder β] (f : α → β) (b : α) (l : List α) :
    ∀ x ∈ l, f x ≤ f (argmaxLeft f b l) := by
  induction l generalizing b with
  | nil => simp
  | cons y ys ih =>
    intro x hx
    rw [argmaxLeft]
    rcases List.mem_cons.1 hx with hxy | hx'
    · subst hxy
      by_cases hb : f b < f x
      · rw [if_pos hb]
        exact argmaxLeft_le_init f x ys
      · rw [if_neg hb]
        exact le_trans (not_lt.1 hb) (argmaxLeft_le_init f b ys)
    · by_cases hb : f b < f y
      · rw [if_pos hb]
        exact ih y x hx'
      · rw [if_neg hb]
        exact ih b x hx'

theorem argmaxLeft_le {α β : Type} [LinearOrder β] (f : α → β) (b : α) (l : List α) :
    ∀ x ∈ b :: l, f x ≤ f (argmaxLeft f b l) := by
  intro x hx
  rcases List.mem_cons.1 hx with hxb | hx'
  · subst hxb
    exact argmaxLeft_le_init f x l
  · exact argmaxLeft_le_mem f b l x hx'

theorem argmaxLeft_mem {α β : Type} [LinearOrder β] (f : α → β) (b : α) (l : List α) :
    argmaxLeft f b l ∈ b :: l := by
  induction l generalizing b with
  | nil => simp [argmaxLeft]
  | cons y ys ih =>
    rw [argmaxLeft]
    by_cases hb : f b < f y
    · rw [if_pos hb]
      rcases List.mem_cons.1 (ih y) with h | h
      · rw [h]
        exact List.mem_cons_of_mem _ (List.mem_cons_self _ _)
      · exact List.mem_cons_of_mem _ (List.mem_cons_of_mem _ h)
    · rw [if_neg hb]
      rcases List.mem_cons.1 (ih b) with h | h
      · rw [h]
        exact List.mem_cons_self _ _
      · exact List.mem_cons_of_mem _ (List.mem_cons_of_mem _ h)

theorem argmaxLeft_find {α β : Type} [LinearOrder β] (f : α → β) (b : α) (l : List α) :
    (b :: l).find? (fun x => decide (f (argmaxLeft f b l) ≤ f x)) =
      some (argmaxLeft f b l) := by
  induction l generalizing b with
  | nil =>
    rw [argmaxLeft]
    exact find?_cons_pos _ b [] (by simp)
  | cons y ys ih =>
    rw [argmaxLeft]
    by_cases hb : f b < f y
    · rw [if_pos hb]
      have hy : f y ≤ f (argmaxLeft f y ys) := argmaxLeft_le_init f y ys
      have hnb : (decide (f (argmaxLeft f y ys) ≤ f b)) = false := by
        simp only [decide_eq_false_iff_not]
        exact not_le.2 (lt_of_lt_of_le hb hy)
      rw [find?_cons_neg _ b (y :: ys) hnb]
      exact ih y
    · rw [if_neg hb]
      by_cases hfb : f (argmaxLeft f b ys) ≤ f b
      · have hpb : (decide (f (argmaxLeft f b ys) ≤ f b)) = true := by
          simpa using hfb
        have h1 := ih b
        rw [find?_cons_pos _ b ys hpb] at h1
        have h2 : argmaxLeft f b ys = b := (Option.some_inj.1 h1).symm
        rw [find?_cons_pos _ b (y :: ys) hpb, h2]
      · have hnb : (decide (f (argmaxLeft f b ys) ≤ f b)) = false := by
          simpa using hfb
        have hny : (decide (f (argmaxLeft f b ys) ≤ f y)) = false := by
          simp only [decide_eq_false_iff_not]
          exact fun hle => hfb (le_trans hle (not_lt.1 hb))
        rw [find?_cons_neg _ b (y :: ys) hnb, find?_cons_neg _ y ys hny]
        have h1 := ih b
        rw [find?_cons_neg _ b ys hnb] at h1
        exact h1

theorem highestLoop_eq (ts : List Txn) : ∀ m : Txn,
    highestLoop m ts = argmaxLeft Txn.amt m ts := by
  induction ts with
  | nil => intro m; rfl
  | cons t ts ih =>
    intro m
    rw [highestLoop, argmaxLeft, ih]

theorem valid_txn_iff {t : Txn} :
    isValid (some t) = true ↔
      (t.type = some "credit" ∨ t.type = some "debit") ∧
        ∃ a : ℚ, t.amount = some a ∧ 0 < a := by
  rw [isValid]
  cases ht : t.amount with
  | none => simp [ht]
  | some a => simp [ht, Bool.or_eq_true, beq_iff_eq]

theorem credit_or_debit {t : Txn} (h : isValid (some t) = true) :
    isCredit t = true ∨ isDebit t = true := by
  rcases (valid_txn_iff.1 h).1 with hc | hd
  · exact Or.inl (by simp [isCredit, hc])
  · exact Or.inr (by simp [isDebit, hd])

theorem credit_not_debit {t : Txn} (h : isCredit t = true) : isDebit t = false := by
  simp only [isCredit, beq_iff_eq] at h
  simp [isDebit, h]

theorem debit_not_credit {t : Txn} (h : isDebit t = true) : isCredit t = false := by
  simp only [isDebit, beq_iff_eq] at h
  simp [isCredit, h]

theorem totals_partition (txns : List Txn)
    (hv : ∀ t ∈ txns, isValid (some t) = true) :
    totalCredit txns + totalDebit txns = totalAmount txns := by
  rw [totalCredit, totalDebit, totalAmount, foldl_add_amt, foldl_add_amt, foldl_add_amt]
  rw [zero_add, zero_add, zero_add]
  induction txns with
  | nil => simp
  | cons t ts ih =>
    have hvt := hv t (List.mem_cons_self _ _)
    have ihts := ih fun u hu => hv u (List.mem_cons_of_mem _ hu)
    rcases credit_or_debit hvt with hc | hd
    · rw [List.filter_cons_of_pos hc,
        List.filter_cons_of_neg (by simp [credit_not_debit hc])]
      simp only [List.map_cons, List.sum_cons]
      rw [add_assoc, ihts]
    · rw [List.filter_cons_of_pos hd,
        List.filter_cons_of_neg (by simp [debit_not_credit hd])]
      simp only [List.map_cons, List.sum_cons]
      rw [← add_assoc, add_comm (((List.filter isCredit ts).map Txn.amt).sum) t.amt,
        add_assoc, ihts]

theorem lt_foldl_min (c : ℚ) (l : List Txn) : ∀ a : ℚ,
    (c < l.foldl (fun m t => min m t.amt) a ↔ c < a ∧ ∀ t ∈ l, c < t.amt) := by
  induction l with
  | nil => intro a; simp
  | cons t ts ih =>
    intro a
    rw [List.foldl_cons, ih (min a t.amt)]
    constructor
    · rintro ⟨hm, hall⟩
      rcases lt_min_iff.1 hm with ⟨ha, ht⟩
      exact ⟨ha, fun u hu => by
        rcases List.mem_cons.1 hu with rfl | hu'
        · exact ht
        · exact hall u hu'⟩
    · rintro ⟨ha, hall⟩
      exact ⟨lt_min_iff.2 ⟨ha, hall t (List.mem_cons_self _ _)⟩,
        fun u hu => hall u (List.mem_cons_of_mem _ hu)⟩

theorem le_foldl_max (c : ℚ) (l : List Txn) : ∀ a : ℚ,
    (c ≤ l.foldl (fun m t => max m t.amt) a ↔ c ≤ a ∨ ∃ t ∈ l, c ≤ t.amt) := by
  induction l with
  | nil => intro a; simp
  | cons t ts ih =>
    intro a
    rw [List.foldl_cons, ih (max a t.amt)]
    constructor
    · rintro (hm | ⟨u, hu, hcu⟩)
      · rcases le_max_iff.1 hm with ha | ht
        · exact Or.inl ha
        · exact Or.inr ⟨t, List.mem_cons_self _ _, ht⟩
      · exact Or.inr ⟨u, List.mem_cons_of_mem _ hu, hcu⟩
    · rintro (ha | ⟨u, hu, hcu⟩)
      · exact Or.inl (le_max_iff.2 (Or.inl ha))
      · rcases List.mem_cons.1 hu with rfl | hu'
        · exact Or.inl (le_max_iff.2 (Or.inr hcu))
        · exact Or.inr ⟨u, hu', hcu⟩

theorem analyze_some {l : List (Option Txn)} {s : Summary}
    (h : analyzeUPITransactions (JSInput.arr l) = some s) :
    ∃ ht ts, validTxns l = ht :: ts ∧ computeSummary (ht :: ts) = some s := by
  rw [analyzeUPITransactions] at h
  by_cases he : l.isEmpty
  · rw [if_pos he] at h
    exact absurd h (by simp)
  · rw [if_neg he] at h
    cases hv : validTxns l with
    | nil => rw [hv] at h; exact absurd h (by simp [computeSummary]) 
    | cons ht ts =>
      rw [hv] at h
      exact ⟨ht, ts, rfl, h⟩

/-- C1: `analyzeUPITransactions` returns the null sentinel if and only if
the input is not a non-empty array or the array contains no record
satisfying the validity predicate; in every other case a summary object is
returned. -/
theorem C1_null_sentinel_iff (i : JSInput) :
    analyzeUPITransactions i = none ↔
      ∀ l : List (Option Txn), i = JSInput.arr l → l = [] ∨ validTxns l = [] := by
  cases i with
  | notArray => simp [analyzeUPITransactions]
  | arr l =>
    rw [analyzeUPITransactions]
    constructor
    · intro h l' hl'
      injection hl' with hl'
      subst hl'
      by_cases he : l.isEmpty
      · exact Or.inl (List.isEmpty_iff.1 he)
      · rw [if_neg he] at h
        cases hv : validTxns l with
        | nil => exact Or.inr rfl
        | cons ht ts => rw [hv] at h; simp [computeSummary] at h
    · intro h
      rcases h l rfl with rfl | hv
      · simp
      · rw [hv]
        by_cases he : l.isEmpty
        · rw [if_pos he]
        · rw [if_neg he]; rfl

/-- C2: a record contributes (i.e. belongs to the filtered valid list) iff
its `type` is exactly `"credit"` or `"debit"`, its `amount` holds a number,
and that number is strictly positive; `null` elements and records with
missing or non-numeric amounts are excluded, and the function stays total
on them. -/
theorem C2_validity_predicate :
    (∀ e : Option Txn, isValid e = true ↔
      ∃ t, e = some t ∧ (t.type = some "credit" ∨ t.type = some "debit") ∧
        ∃ a : ℚ, t.amount = some a ∧ 0 < a) ∧
    (∀ (l : List (Option Txn)) (t : Txn),
      t ∈ validTxns l ↔ some t ∈ l ∧ isValid (some t) = true) := by
  constructor
  · intro e
    cases e with
    | none => simp [isValid]
    | some t =>
      rw [valid_txn_iff]
      constructor
      · intro hp
        exact ⟨t, rfl, hp⟩
      · rintro ⟨t', ht', hp⟩
        injection ht' with e
        subst e
        exact hp
  · intro l t
    exact mem_validTxns

/-- C10: the analyzer is total: on every input it returns either the null
sentinel or a summary object. -/
theorem C10_total (i : JSInput) :
    analyzeUPITransactions i = none ∨ ∃ s, analyzeUPITransactions i = some s := by
  cases h : analyzeUPITransactions i with
  | none => exact Or.inl rfl
  | some s => exact Or.inr ⟨s, rfl⟩

/-- C8: `totalCredit` sums the amounts of valid credit records,
`totalDebit` those of valid debit records, and `netBalance` is exactly
their difference. -/
theorem C8_totals (l : List (Option Txn)) (s : Summary)
    (h : analyzeUPITransactions (JSInput.arr l) = some s) :
    s.totalCredit = (((validTxns l).filter isCredit).map Txn.amt).sum ∧
    s.totalDebit = (((validTxns l).filter isDebit).map Txn.amt).sum ∧
    s.netBalance = s.totalCredit - s.totalDebit := by
  obtain ⟨ht, ts, hv, hc⟩ := analyze_some h
  simp only [computeSummary, Option.some.injEq] at hc
  subst hc
  rw [hv]
  refine ⟨?_, ?_, rfl⟩
  · show totalCredit (ht :: ts) = (((ht :: ts).filter isCredit).map Txn.amt).sum
    rw [totalCredit, foldl_add_amt, zero_add]
  · show totalDebit (ht :: ts) = (((ht :: ts).filter isDebit).map Txn.amt).sum
    rw [totalDebit, foldl_add_amt, zero_add]

/-- C5: `avgTransaction` is the round-half-up of the sum of all valid
amounts, which equals `totalCredit + totalDebit`, divided by
`transactionCount`. -/
theorem C5_avg (l : List (Option Txn)) (s : Summary)
    (h : analyzeUPITransactions (JSInput.arr l) = some s) :
    s.avgTransaction =
      jsRound ((s.totalCredit + s.totalDebit) / (s.transactionCount : ℚ)) := by
  obtain ⟨ht, ts, hv, hc⟩ := analyze_some h
  simp only [computeSummary, Option.some.injEq] at hc
  subst hc
  have hval : ∀ t ∈ ht :: ts, isValid (some t) = true := by
    intro t htm
    rw [← hv] at htm
    exact (mem_validTxns.1 htm).2
  show jsRound (totalAmount (ht :: ts) / (((ht :: ts).length : ℕ) : ℚ)) =
    jsRound ((totalCredit (ht :: ts) + totalDebit (ht :: ts)) /
      (((ht :: ts).length : ℕ) : ℚ))
  rw [totals_partition (ht :: ts) hval]

/-- C9: invalid elements never influence the output: two non-empty arrays
with the same ordered list of valid records produce equal results. -/
theorem C9_valid_subsequence_determines (l1 l2 : List (Option Txn))
    (h1 : l1 ≠ []) (h2 : l2 ≠ []) (hv : validTxns l1 = validTxns l2) :
    analyzeUPITransactions (JSInput.arr l1) =
      analyzeUPITransactions (JSInput.arr l2) := by
  have e1 : ¬ (l1.isEmpty = true) := fun he => h1 (List.isEmpty_iff.1 he)
  have e2 : ¬ (l2.isEmpty = true) := fun he => h2 (List.isEmpty_iff.1 he)
  rw [analyzeUPITransactions, analyzeUPITransactions, if_neg e1, if_neg e2, hv]

/-- C7: `allAbove100` holds iff the minimum valid amount exceeds 100, and
`hasLargeTransaction` holds iff the maximum valid amount is at least
5000. -/
theorem C7_bool_flags (l : List (Option Txn)) (s : Summary)
    (h : analyzeUPITransactions (JSInput.arr l) = some s) :
    ∀ ht ts, validTxns l = ht :: ts →
      ((s.allAbove100 = true ↔ 100 < minAmt ht ts) ∧
       (s.hasLargeTransaction = true ↔ 5000 ≤ maxAmt ht ts)) := by
  obtain ⟨ht, ts, hv, hc⟩ := analyze_some h
  simp only [computeSummary, Option.some.injEq] at hc
  subst hc
  intro ht0 ts0 hvt
  rw [hv] at hvt
  injection hvt with e1 e2
  rw [← e1, ← e2]
  constructor
  · show ((ht :: ts).all fun t => decide (100 < t.amt)) = true ↔ 100 < minAmt ht ts
    rw [minAmt, lt_foldl_min, List.all_eq_true]
    constructor
    · intro hall
      exact ⟨by simpa using hall ht (List.mem_cons_self _ _),
        fun t htm => by simpa using hall t (List.mem_cons_of_mem _ htm)⟩
    · rintro ⟨hh, hts⟩ t htm
      rcases List.mem_cons.1 htm with rfl | htm'
      · simpa using hh
      · simpa using hts t htm'
  · show ((ht :: ts).any fun t => decide (5000 ≤ t.amt)) = true ↔ 5000 ≤ maxAmt ht ts
    rw [maxAmt, le_foldl_max, List.any_eq_true]
    constructor
    · rintro ⟨t, htm, hb⟩
      rcases List.mem_cons.1 htm with rfl | htm'
      · exact Or.inl (by simpa using hb)
      · exact Or.inr ⟨t, htm', by simpa using hb⟩
    · rintro (hh | ⟨t, htm, hb⟩)
      · exact ⟨ht, List.mem_cons_self _ _, by simpa using hh⟩
      · exact ⟨t, List.mem_cons_of_mem _ htm, by simpa using hb⟩

/-- C4: `highestTransaction` is a valid record with maximal amount, and it
is the first record reaching that amount in input order. -/
theorem C4_highest (l : List (Option Txn)) (s : Summary)
    (h : analyzeUPITransactions (JSInput.arr l) = some s) :
    s.highestTransaction ∈ validTxns l ∧
    (∀ t ∈ validTxns l, t.amt ≤ s.highestTransaction.amt) ∧
    (validTxns l).find? (fun t => decide (s.highestTransaction.amt ≤ t.amt)) =
      some s.highestTransaction := by
  obtain ⟨ht, ts, hv, hc⟩ := analyze_some h
  simp only [computeSummary, Option.some.injEq] at hc
  subst hc
  rw [hv]
  refine ⟨?_, ?_, ?_⟩
  · show highestLoop ht ts ∈ ht :: ts
    rw [highestLoop_eq ts ht]
    exact argmaxLeft_mem Txn.amt ht ts
  · show ∀ t ∈ ht :: ts, t.amt ≤ (highestLoop ht ts).amt
    rw [highestLoop_eq ts ht]
    exact argmaxLeft_le Txn.amt ht ts
  · show (ht :: ts).find? (fun t => decide ((highestLoop ht ts).amt ≤ t.amt)) =
      some (highestLoop ht ts)
    rw [highestLoop_eq ts ht]
    exact argmaxLeft_find Txn.amt ht ts


/-- First record of the worked example in the source's doc comment. -/
def exT1 : Txn :=
  ⟨some "T1", some "credit", some 5000, some "Salary", some "income", some "2025-01-01"⟩

/-- Second record of the worked example. -/
def exT2 : Txn :=
  ⟨some "T2", some "debit", some 200, some "Swiggy", some "food", some "2025-01-02"⟩

/-- Third record of the worked example. -/
def exT3 : Txn :=
  ⟨some "T3", some "debit", some 100, some "Swiggy", some "food", some "2025-01-03"⟩

/-- An invalid record: its `type` is neither `"credit"` nor `"debit"`. -/
def exBad : Txn :=
  ⟨some "T4", some "transfer", some 999, some "X", some "misc", none⟩

/-- The worked example interleaved with a `null` element and an invalid
record. -/
def exList : List (Option Txn) := [some exT1, none, some exBad, some exT2, some exT3]

/-- The worked example with the invalid elements removed. -/
def exList2 : List (Option Txn) := [some exT1, some exT2, some exT3]

/-- A dummy summary used only as the `Option.getD` default below. -/
def exDefault : Summary :=
  ⟨0, 0, 0, 0, 0, ⟨none, none, none, none, none, none⟩, [], none, false, false⟩

/-- The summary the analyzer actually produces on `exList`. -/
def exSummary : Summary :=
  (analyzeUPITransactions (JSInput.arr exList)).getD exDefault

/-- Witness for C4 at the concrete input `exList`. -/
theorem C4_highest_witness :
    analyzeUPITransactions (JSInput.arr exList) = some exSummary ∧
    exSummary.highestTransaction ∈ validTxns exList :=
  ⟨rfl, (C4_highest exList exSummary rfl).1⟩

/-- Witness for C5 at the concrete input `exList`. -/
theorem C5_avg_witness :
    analyzeUPITransactions (JSInput.arr exList) = some exSummary ∧
    exSummary.avgTransaction =
      jsRound ((exSummary.totalCredit + exSummary.totalDebit) /
        (exSummary.transactionCount : ℚ)) :=
  ⟨rfl, C5_avg exList exSummary rfl⟩

/-- Witness for C7 at the concrete input `exList`. -/
theorem C7_bool_flags_witness :
    analyzeUPITransactions (JSInput.arr exList) = some exSummary ∧
    validTxns exList = exT1 :: [exT2, exT3] ∧
    (exSummary.allAbove100 = true ↔ 100 < minAmt exT1 [exT2, exT3]) :=
  ⟨rfl, by decide,
    (C7_bool_flags exList exSummary rfl exT1 [exT2, exT3] (by decide)).1⟩

/-- Witness for C8 at the concrete input `exList`. -/
theorem C8_totals_witness :
    analyzeUPITransactions (JSInput.arr exList) = some exSummary ∧
    exSummary.netBalance = exSummary.totalCredit - exSummary.totalDebit :=
  ⟨rfl, (C8_totals exList exSummary rfl).2.2⟩

/-- Witness for C9: `exList` and `exList2` differ only in invalid
elements, and the analyzer returns equal results on them. -/
theorem C9_witness :
    exList ≠ [] ∧ exList2 ≠ [] ∧ validTxns exList = validTxns exList2 ∧
    analyzeUPITransactions (JSInput.arr exList) =
      analyzeUPITransactions (JSInput.arr exList2) :=
  ⟨by decide, by decide, rfl,
    C9_valid_subsequence_determines exList exList2 (by decide) (by decide) rfl⟩

/-- A valid record whose `to` label names `Object.prototype.toString`. -/
def bugT1 : Txn :=
  ⟨some "B1", some "credit", some 100, some "toString", some "x", none⟩

/-- A second valid record with the same colliding `to` label. -/
def bugT2 : Txn :=
  ⟨some "B2", some "debit", some 50, some "toString", some "x", none⟩

/-- A valid record with a plain `to` label. -/
def bugT3 : Txn :=
  ⟨some "B3", some "credit", some 75, some "X", some "x", none⟩

/-- Input on which the contact scan mis-reports the most frequent label:
`"toString"` occurs twice, `"X"` once. -/
def bugList3 : List (Option Txn) := [some bugT1, some bugT2, some bugT3]

/-- The summary the analyzer actually produces on `bugList3`. -/
def bugSummary3 : Summary :=
  (analyzeUPITransactions (JSInput.arr bugList3)).getD exDefault

/-- C3: evaluation of the code at the failing input.  The label
`"toString"` occurs twice among the valid records and `"X"` once, yet the
analyzer reports `"X"`: reading `contactCount["toString"]` hits the
inherited `Object.prototype.toString`, so the stored value is a
non-numeric string and the scan's `> maxCount` comparison is false for
it, while `"X"` with count 1 wins.  The claim (and the function's own
doc comment, "the `to` field value that appears most often") requires
`"toString"`. -/
theorem C3_frequentContact_bug :
    analyzeUPITransactions (JSInput.arr bugList3) = some bugSummary3 ∧
    bugSummary3.frequentContact = some "X" ∧
    labelCount (validTxns bugList3) (some "toString") = 2 ∧
    labelCount (validTxns bugList3) (some "X") = 1 :=
  ⟨rfl, by decide, by decide, by decide⟩

/-- A valid credit record whose category names `Object.prototype.toString`. -/
def bug6T1 : Txn :=
  ⟨some "C1", some "credit", some 500, some "A", some "toString", none⟩

/-- A valid debit record whose category is `"__proto__"`. -/
def bug6T2 : Txn :=
  ⟨some "C2", some "debit", some 300, some "B", some "__proto__", none⟩

/-- A valid credit record with a plain category. -/
def bug6T3 : Txn :=
  ⟨some "C3", some "credit", some 200, some "C", some "food", none⟩

/-- Input on which the category breakdown stores a junk string and drops
a category entirely. -/
def bugList6 : List (Option Txn) := [some bug6T1, some bug6T2, some bug6T3]

/-- The summary the analyzer actually produces on `bugList6`. -/
def bugSummary6 : Summary :=
  (analyzeUPITransactions (JSInput.arr bugList6)).getD exDefault

/-- C6: evaluation of the code at the failing input.  The category
`"toString"` is mapped to a non-numeric junk string instead of the sum
500, and the category `"__proto__"` of a valid record gets no entry at
all (the write is swallowed by the inherited setter), so the breakdown
neither maps each valid category to its summed amount nor has values
totalling `totalCredit + totalDebit` (its only numeric value is 200,
against totals of 700 + 300).  The claim and the function's own doc
comment ("object with category as key and total amount as value")
require numeric sums for every category. -/
theorem C6_categoryBreakdown_bug :
    analyzeUPITransactions (JSInput.arr bugList6) = some bugSummary6 ∧
    bugSummary6.categoryBreakdown =
      [(some "toString", BDVal.junk), (some "food", BDVal.num 200)] ∧
    objGet bugSummary6.categoryBreakdown (some "__proto__") = none ∧
    some "__proto__" ∈ (validTxns bugList6).map (fun t => t.category) :=
  ⟨rfl, by decide, by decide, by decide⟩
